import Mathlib

/-!
Verification of the RDAP enrichment pipeline (rdap_enrichment.py):
shallow embedding of its per-row and per-list logic, with theorems about
consensus resolution, lookup selection, the token-bucket rate limiter,
backoff, sharding, cache loading, CDN filtering, lookup error isolation,
and merge null semantics.
-/

namespace RdapEnrichment

/-- Mirrors the map RUUA = {"RU": "Russia", "UA": "Ukraine"} used by
consensus_cols: membership test of the tracked set (isin on the dict keys). -/
def in_RUUA (c : String) : Bool := c == "RU" || c == "UA"

/-- Mirrors .map(RUUA) on a tracked code: the label for the code, none when
the code is not a key of the dict. -/
def RUUA_label (c : String) : Option String :=
  if c == "RU" then some "Russia" else if c == "UA" then some "Ukraine" else none

/-- ASCII uppercase of one character (kernel-computable model of upper). -/
def upChar (c : Char) : Char :=
  if 'a' ≤ c ∧ c ≤ 'z' then Char.ofNat (c.toNat - 32) else c

/-- ASCII lowercase of one character (kernel-computable model of lower). -/
def lowChar (c : Char) : Char :=
  if 'A' ≤ c ∧ c ≤ 'Z' then Char.ofNat (c.toNat + 32) else c

/-- Uppercase of a string, used to model .upper() and .str.upper(). -/
def strUpper (s : String) : String := ⟨s.data.map upChar⟩

/-- Lowercase of a string, used to model .lower(). -/
def strLower (s : String) : String := ⟨s.data.map lowChar⟩

/-- Per-cell semantics of _norm_cc_series: uppercase, then map the NA-like
tokens to the empty string (s.where over isin of the token list). -/
def norm_cc (s : String) : String :=
  let u := strUpper s
  if u == "" || u == "NA" || u == "N/A" || u == "NONE" || u == "NULL" || u == "NAN"
  then "" else u

/-- Per-row semantics of consensus_cols: the masks m_both, m_strict,
m_conflict, m_mm, m_rd of the source applied to one (countrycode,
rdap_net_cc) pair; in strict mode the function returns right after rule 1.
Result is (country_consensus, consensus_rule). -/
def consensus_cols (strict : Bool) (mm0 rd0 : String) : Option String × String :=
  let mm := norm_cc mm0
  let rd := norm_cc rd0
  let m_both := in_RUUA mm && in_RUUA rd
  let m_strict := m_both && (mm == rd)
  if m_strict then (RUUA_label mm, "strict")
  else if strict then (none, "no_ru_ua")
  else
    let m_conflict := m_both && (mm != rd)
    if m_conflict then (none, "conflict")
    else if in_RUUA mm && !m_strict && !m_conflict then (RUUA_label mm, "mm_only")
    else if in_RUUA rd && !m_strict && !m_conflict then (RUUA_label rd, "rdap_only")
    else (none, "no_ru_ua")

/-- Written from the specification text of the consensus resolver: the five
numbered precedence rules, rules 2-4 skipped in strict-only mode. Used to
compare the consensus_cols of the code against the stated precedence order. -/
def consensus_spec (strict : Bool) (mm0 rd0 : String) : Option String × String :=
  let mm := norm_cc mm0
  let rd := norm_cc rd0
  if in_RUUA mm && in_RUUA rd && (mm == rd) then (RUUA_label mm, "strict")
  else if strict then (none, "no_ru_ua")
  else if in_RUUA mm && in_RUUA rd then (none, "conflict")
  else if in_RUUA mm then (RUUA_label mm, "mm_only")
  else if in_RUUA rd then (RUUA_label rd, "rdap_only")
  else (none, "no_ru_ua")

/-- C1: in non-strict mode the consensus resolver is the total deterministic
function of the normalized pair following the strict precedence order
(strict, conflict, mm_only, rdap_only, no_ru_ua), and it produces the five
listed example outcomes. -/
theorem consensus_nonstrict_correct (mm0 rd0 : String) :
    consensus_cols false mm0 rd0 = consensus_spec false mm0 rd0 ∧
    consensus_cols false "RU" "RU" = (some "Russia", "strict") ∧
    consensus_cols false "RU" "UA" = (none, "conflict") ∧
    consensus_cols false "RU" "" = (some "Russia", "mm_only") ∧
    consensus_cols false "" "UA" = (some "Ukraine", "rdap_only") ∧
    consensus_cols false "FR" "DE" = (none, "no_ru_ua") := by
  refine ⟨?_, by decide, by decide, by decide, by decide, by decide⟩
  by_cases h : norm_cc mm0 = norm_cc rd0 <;>
    rcases hmm : in_RUUA (norm_cc mm0) <;>
    rcases hrd : in_RUUA (norm_cc rd0) <;>
    simp_all [consensus_cols, consensus_spec]

/-- C5: in strict-only mode the resolver yields rule strict (with the shared
label) exactly when both normalized codes are tracked and equal, and every
other pair — mm_only, rdap_only and conflict pairs included — is left at
no_ru_ua with no consensus value. -/
theorem consensus_strict_only (mm0 rd0 : String) :
    consensus_cols true mm0 rd0 =
      (if in_RUUA (norm_cc mm0) && in_RUUA (norm_cc rd0) && (norm_cc mm0 == norm_cc rd0)
       then (RUUA_label (norm_cc mm0), "strict") else (none, "no_ru_ua")) ∧
    ((consensus_cols true mm0 rd0).2 = "strict" ↔
      in_RUUA (norm_cc mm0) = true ∧ in_RUUA (norm_cc rd0) = true ∧
        norm_cc mm0 = norm_cc rd0) ∧
    consensus_cols true "RU" "" = (none, "no_ru_ua") ∧
    consensus_cols true "" "UA" = (none, "no_ru_ua") ∧
    consensus_cols true "RU" "UA" = (none, "no_ru_ua") := by
  refine ⟨?_, ?_, by decide, by decide, by decide⟩ <;>
    (by_cases h : norm_cc mm0 = norm_cc rd0 <;>
      rcases hmm : in_RUUA (norm_cc mm0) <;>
      rcases hrd : in_RUUA (norm_cc rd0) <;>
      simp_all [consensus_cols])

/-- One whitespace character, for the model of .strip(). -/
def isWS (c : Char) : Bool := c == ' ' || c == '\t' || c == '\n' || c == '\r'

/-- Model of .strip(): drop leading and trailing whitespace. -/
def strTrim (s : String) : String :=
  ⟨((s.data.dropWhile isWS).reverse.dropWhile isWS).reverse⟩

/-- A cached RDAP result, mirroring the dicts produced by rdap_lookup and
stored in the JSONL cache: ok plus the optional normalized fields. -/
structure CacheEntry where
  ok : Bool
  rdap_net_cc : Option String := none
  rdap_org : Option String := none
  rdap_cidr : Option String := none
  rir : Option String := none
  error : Option String := none
deriving DecidableEq

/-- The country code read from a cached entry in process_csv:
(c.get("rdap_net_cc") or "").strip().upper(). -/
def cached_cc (c : CacheEntry) : String := strUpper (strTrim (c.rdap_net_cc.getD ""))

/-- The selection loop of process_csv deciding which IPs need fresh queries:
skip rules against the cache, then the budget break, then append. budget = 0
means no per-file budget (the Python truthiness of RDAP_BUDGET). -/
def select_to_query (cache : String → Option CacheEntry)
    (retry_bad retry_empty : Bool) (budget : Nat) :
    List String → Nat → List String
  | [], _ => []
  | ip :: rest, used =>
    if (match cache ip with
        | none => false
        | some c =>
          if !c.ok && !retry_bad then true
          else if c.ok && cached_cc c == "" && retry_empty then false
          else if c.ok then true
          else false) then
      select_to_query cache retry_bad retry_empty budget rest used
    else if budget != 0 && decide (budget ≤ used) then []
    else ip :: select_to_query cache retry_bad retry_empty budget rest (used + 1)

/-- The per-IP decision implicit in the selection loop: query the IP afresh
unless a cache rule skips it. -/
def should_query (cache : String → Option CacheEntry)
    (retry_bad retry_empty : Bool) (ip : String) : Bool :=
  match cache ip with
  | none => true
  | some c =>
    if !c.ok && !retry_bad then false
    else if c.ok && cached_cc c == "" && retry_empty then true
    else if c.ok then false
    else true

/-- Concrete three-IP cache for the end-to-end selection scenario: A cached
ok with non-empty country, B uncached, C cached failed. -/
def scenario_cache : String → Option CacheEntry := fun ip =>
  if ip == "A" then some { ok := true, rdap_net_cc := some "RU" }
  else if ip == "C" then some { ok := false, error := some "timeout" }
  else none

lemma should_query_not_skip (cache : String → Option CacheEntry)
    (rb re : Bool) (ip : String) :
    should_query cache rb re ip =
      !(match cache ip with
        | none => false
        | some c =>
          if !c.ok && !rb then true
          else if c.ok && cached_cc c == "" && re then false
          else if c.ok then true
          else false) := by
  unfold should_query
  rcases cache ip with _ | c
  · rfl
  · rcases hok : c.ok <;> rcases rb <;> rcases re <;>
      rcases hcc : cached_cc c == "" <;> simp [hok, hcc]

lemma select_to_query_no_budget (cache : String → Option CacheEntry)
    (rb re : Bool) (ips : List String) (used : Nat) :
    select_to_query cache rb re 0 ips used =
      ips.filter (should_query cache rb re) := by
  induction ips generalizing used with
  | nil => rfl
  | cons ip rest ih =>
    rw [select_to_query, List.filter_cons]
    by_cases hs : (match cache ip with
      | none => false
      | some c =>
        if !c.ok && !rb then true
        else if c.ok && cached_cc c == "" && re then false
        else if c.ok then true
        else false) = true
    · have hq : should_query cache rb re ip = false := by
        rw [should_query_not_skip, hs]; rfl
      rw [if_pos hs, hq]
      simp [ih]
    · have hq : should_query cache rb re ip = true := by
        rw [should_query_not_skip, eq_false_of_ne_true hs]; rfl
      rw [if_neg hs, hq]
      simp [ih]

lemma select_to_query_budget_le (cache : String → Option CacheEntry)
    (rb re : Bool) (budget : Nat) (ips : List String) (used : Nat)
    (hb : budget ≠ 0) :
    (select_to_query cache rb re budget ips used).length ≤ budget - used := by
  induction ips generalizing used with
  | nil => simp [select_to_query]
  | cons ip rest ih =>
    rw [select_to_query]
    by_cases hs : (match cache ip with
      | none => false
      | some c =>
        if !c.ok && !rb then true
        else if c.ok && cached_cc c == "" && re then false
        else if c.ok then true
        else false) = true
    · rw [if_pos hs]
      exact ih used
    · rw [if_neg hs]
      by_cases hu : budget ≤ used
      · rw [if_pos (by simp [hu, hb])]
        simp
      · rw [if_neg (by simp [hu])]
        have := ih (used + 1)
        simp only [List.length_cons]
        omega

/-- C2: with no per-file budget the selection loop schedules exactly the IPs
passing the per-IP policy (uncached, or failed with retry-failed set, or ok
with an empty cached code and retry-empty set); with a budget it schedules at
most budget IPs; and on the A/B/C scenario with retry-failed enabled it
schedules exactly B and C. -/
theorem lookup_selection_policy :
    (∀ cache rb re ips used, select_to_query cache rb re 0 ips used =
        ips.filter (should_query cache rb re)) ∧
    (∀ cache rb re ip, should_query cache rb re ip = true ↔
        (cache ip = none ∨ ∃ c, cache ip = some c ∧
          ((c.ok = false ∧ rb = true) ∨
           (c.ok = true ∧ cached_cc c = "" ∧ re = true)))) ∧
    (∀ cache rb re budget ips, budget ≠ 0 →
        (select_to_query cache rb re budget ips 0).length ≤ budget) ∧
    select_to_query scenario_cache true true 0 ["A", "B", "C"] 0 = ["B", "C"] := by
  refine ⟨select_to_query_no_budget, ?_, ?_, by decide⟩
  · intro cache rb re ip
    unfold should_query
    rcases cache ip with _ | c
    · simp
    · rcases hok : c.ok <;> rcases rb <;> rcases re <;>
        rcases hcc : cached_cc c == "" <;> simp_all
  · intro cache rb re budget ips hb
    simpa using select_to_query_budget_le cache rb re budget ips 0 hb

/-- Witness for the selection-policy theorem: with a budget of 2 over four
IPs at most 2 are scheduled. -/
theorem lookup_selection_policy_witness :
    (2 : Nat) ≠ 0 ∧
    (select_to_query scenario_cache true true 2 ["A", "B", "C", "D"] 0).length ≤ 2 :=
  ⟨by decide,
   lookup_selection_policy.2.2.1 scenario_cache true true 2 ["A", "B", "C", "D"]
     (by decide)⟩

/-- One acquire of _rate_limit_token_bucket over explicit state: given qps,
the capacity (burst), the tokens held and the elapsed time since the last
refill, returns the new token count and the wait handed to the caller. -/
def acquire (qps burst tokens elapsed : ℚ) : ℚ × ℚ :=
  let add := elapsed * qps
  let t := if add > 0 then min burst (tokens + add) else tokens
  if t ≥ 1 then (t - 1, 0)
  else (t, max 0 ((1 - t) / qps))

/-- Token count after n acquisitions with zero elapsed time, starting from a
full bucket, as in a burst of back-to-back acquire calls. -/
def acquire_iter (qps burst : ℚ) : Nat → ℚ
  | 0 => burst
  | n + 1 => (acquire qps burst (acquire_iter qps burst n) 0).1

lemma acquire_eq (qps burst tokens elapsed : ℚ)
    (hq : 0 < qps) (h1 : tokens ≤ burst) (he : 0 ≤ elapsed) :
    acquire qps burst tokens elapsed =
      (if 1 ≤ min burst (tokens + elapsed * qps)
       then (min burst (tokens + elapsed * qps) - 1, 0)
       else (min burst (tokens + elapsed * qps),
             max 0 ((1 - min burst (tokens + elapsed * qps)) / qps))) := by
  unfold acquire
  by_cases hadd : elapsed * qps > 0
  · simp only [if_pos hadd, ge_iff_le]
  · have hz : elapsed * qps = 0 :=
      le_antisymm (not_lt.mp hadd) (mul_nonneg he hq.le)
    simp only [hz, gt_iff_lt, lt_irrefl, if_false, add_zero,
      min_eq_right h1, ge_iff_le]

lemma acquire_step_ge (qps burst tokens elapsed : ℚ)
    (hq : 0 < qps) (h1 : tokens ≤ burst) (he : 0 ≤ elapsed)
    (h : 1 ≤ min burst (tokens + elapsed * qps)) :
    acquire qps burst tokens elapsed =
      (min burst (tokens + elapsed * qps) - 1, 0) := by
  rw [acquire_eq qps burst tokens elapsed hq h1 he, if_pos h]

lemma acquire_step_lt (qps burst tokens elapsed : ℚ)
    (hq : 0 < qps) (h1 : tokens ≤ burst) (he : 0 ≤ elapsed)
    (h : min burst (tokens + elapsed * qps) < 1) :
    acquire qps burst tokens elapsed =
      (min burst (tokens + elapsed * qps),
       (1 - min burst (tokens + elapsed * qps)) / qps) := by
  rw [acquire_eq qps burst tokens elapsed hq h1 he, if_neg (not_le.mpr h),
    max_eq_right (div_nonneg (by linarith) hq.le)]

lemma acquire_iter_full (qps : ℚ) (b : ℕ) (n : ℕ) (hn : n ≤ b) :
    acquire_iter qps (b : ℚ) n = (b : ℚ) - n := by
  induction n with
  | zero => simp [acquire_iter]
  | succ n ih =>
    have hn' : n ≤ b := Nat.le_of_succ_le hn
    have h1 : (1 : ℚ) ≤ (b : ℚ) - n := by
      have : (n : ℚ) + 1 ≤ (b : ℚ) := by exact_mod_cast hn
      linarith
    rw [acquire_iter, ih hn']
    unfold acquire
    simp only [zero_mul, gt_iff_lt, lt_irrefl, if_false, ge_iff_le, if_pos h1]
    push_cast
    ring

/-- C3: one acquire refills by elapsed times qps capped at capacity, then
either consumes one token with zero wait (when at least one token is
available) or consumes nothing and reports a positive wait of
(1 - tokens) / qps; tokens stay within [0, capacity] and the wait is never
negative; and from a full bucket with no elapsed time exactly burst
consecutive acquisitions see zero wait before a positive wait appears. -/
theorem token_bucket_correct :
    (∀ qps burst tokens elapsed : ℚ, 0 < qps → 1 ≤ burst →
      0 ≤ tokens → tokens ≤ burst → 0 ≤ elapsed →
      ((1 ≤ min burst (tokens + elapsed * qps) →
          acquire qps burst tokens elapsed =
            (min burst (tokens + elapsed * qps) - 1, 0)) ∧
       (min burst (tokens + elapsed * qps) < 1 →
          acquire qps burst tokens elapsed =
            (min burst (tokens + elapsed * qps),
             (1 - min burst (tokens + elapsed * qps)) / qps) ∧
          0 < (1 - min burst (tokens + elapsed * qps)) / qps) ∧
       (acquire qps burst tokens elapsed).1 ≤ burst ∧
       0 ≤ (acquire qps burst tokens elapsed).1 ∧
       0 ≤ (acquire qps burst tokens elapsed).2)) ∧
    (∀ (qps : ℚ) (b : ℕ), 0 < qps → 1 ≤ b →
      (∀ n, n < b → (acquire qps (b : ℚ) (acquire_iter qps (b : ℚ) n) 0).2 = 0) ∧
      0 < (acquire qps (b : ℚ) (acquire_iter qps (b : ℚ) b) 0).2) := by
  constructor
  · intro qps burst tokens elapsed hq hb h0 h1 he
    have hadd : 0 ≤ elapsed * qps := mul_nonneg he hq.le
    have hmin0 : 0 ≤ min burst (tokens + elapsed * qps) :=
      le_min (by linarith) (by linarith)
    have hminb : min burst (tokens + elapsed * qps) ≤ burst := min_le_left _ _
    rcases le_or_lt 1 (min burst (tokens + elapsed * qps)) with h | h
    · rw [acquire_step_ge qps burst tokens elapsed hq h1 he h]
      refine ⟨fun _ => rfl, fun hc => absurd h (not_le.mpr hc), ?_, ?_, le_refl 0⟩
      · show min burst (tokens + elapsed * qps) - 1 ≤ burst
        linarith
      · show 0 ≤ min burst (tokens + elapsed * qps) - 1
        linarith
    · rw [acquire_step_lt qps burst tokens elapsed hq h1 he h]
      have hw : 0 < (1 - min burst (tokens + elapsed * qps)) / qps :=
        div_pos (by linarith) hq
      exact ⟨fun hc => absurd hc (not_le.mpr h), fun _ => ⟨rfl, hw⟩,
        hminb, hmin0, hw.le⟩
  · intro qps b hq hb
    constructor
    · intro n hn
      rw [acquire_iter_full qps b n hn.le]
      have h1 : (1 : ℚ) ≤ (b : ℚ) - n := by
        have : (n : ℚ) + 1 ≤ (b : ℚ) := by exact_mod_cast hn
        linarith
      unfold acquire
      simp only [zero_mul, gt_iff_lt, lt_irrefl, if_false, ge_iff_le, if_pos h1]
    · rw [acquire_iter_full qps b b (le_refl b), sub_self]
      unfold acquire
      simp only [zero_mul, gt_iff_lt, lt_irrefl, if_false, ge_iff_le]
      rw [if_neg (by norm_num)]
      have hw : (0 : ℚ) < 1 / qps := by positivity
      simpa using hw

/-- Witness for the token-bucket theorem at qps 2, capacity 3, tokens 1,
elapsed 0, and the burst scenario at capacity 1. -/
theorem token_bucket_correct_witness :
    (0 : ℚ) < 2 ∧ (1 : ℚ) ≤ 3 ∧ (0 : ℚ) ≤ 1 ∧ (1 : ℚ) ≤ 3 ∧ (0 : ℚ) ≤ 0 ∧
    0 ≤ (acquire 2 3 1 0).2 ∧ 1 ≤ 1 ∧
    0 < (acquire 2 ((1 : ℕ) : ℚ) (acquire_iter 2 ((1 : ℕ) : ℚ) 1) 0).2 :=
  ⟨by norm_num, by norm_num, by norm_num, by norm_num, by norm_num,
   (token_bucket_correct.1 2 3 1 0 (by norm_num) (by norm_num) (by norm_num)
      (by norm_num) (by norm_num)).2.2.2.2,
   le_refl 1,
   (token_bucket_correct.2 2 1 (by norm_num) (le_refl 1)).2⟩

/-- Does the second list start with the first one (block equality at the
head), the base step of substring containment. -/
def leadEq : List Char → List Char → Bool
  | [], _ => true
  | _ :: _, [] => false
  | c :: p, d :: s => c == d && leadEq p s

/-- Substring containment on character lists: the Python in operator. -/
def hasSub (p : List Char) : List Char → Bool
  | [] => leadEq p []
  | d :: s => leadEq p (d :: s) || hasSub p s

/-- Substring containment on strings. -/
def strIn (p s : String) : Bool := hasSub p.data s.data

/-- The transient-error test of _with_backoff: str(e).lower() contains one
of the rate-limit substrings 429, rate, too many. -/
def is_transient (msg : String) : Bool :=
  let m := strLower msg
  strIn "429" m || strIn "rate" m || strIn "too many" m

/-- _with_backoff over an abstract sequence of attempt outcomes: attempt i
yields f i, jit i is the jitter sampled before sleep i. fuel is the number
of guarded attempts left (6 at entry); when it runs out, one final
unguarded attempt is made and returned as-is. Result: the outcome plus the
list of sleep durations (delay + jitter) in order. -/
def backoff_aux (f : Nat → Except String α) (jit : Nat → ℚ) :
    Nat → Nat → ℚ → Except String α × List ℚ
  | 0, i, _ => (f i, [])
  | fuel + 1, i, delay =>
    match f i with
    | Except.ok v => (Except.ok v, [])
    | Except.error e =>
      if is_transient e then
        let r := backoff_aux f jit fuel (i + 1) (min (delay * 2) 16)
        (r.1, (delay + jit i) :: r.2)
      else (Except.error e, [])

/-- Entry point of the backoff wrapper: 6 guarded attempts starting at
delay 0.5 s. -/
def with_backoff (f : Nat → Except String α) (jit : Nat → ℚ) :
    Except String α × List ℚ :=
  backoff_aux f jit 6 0 (1 / 2)

lemma backoff_aux_zero (f : Nat → Except String α) (jit : Nat → ℚ)
    (i : Nat) (d : ℚ) : backoff_aux f jit 0 i d = (f i, []) := rfl

lemma backoff_aux_succ (f : Nat → Except String α) (jit : Nat → ℚ)
    (fuel i : Nat) (d : ℚ) :
    backoff_aux f jit (fuel + 1) i d =
      (match f i with
       | Except.ok v => (Except.ok v, [])
       | Except.error e =>
         if is_transient e then
           ((backoff_aux f jit fuel (i + 1) (min (d * 2) 16)).1,
            (d + jit i) :: (backoff_aux f jit fuel (i + 1) (min (d * 2) 16)).2)
         else (Except.error e, [])) := rfl

/-- The delay before sleep k in _with_backoff: base 0.5 s, doubled after
each retry, capped at 16 s. -/
def backoff_delay : Nat → ℚ
  | 0 => 1 / 2
  | k + 1 => min (backoff_delay k * 2) 16

lemma backoff_reach {α : Type} (f : Nat → Except String α) (jit : Nat → ℚ)
    (i : Nat) (hi : i ≤ 6)
    (H : ∀ j, j < i → ∃ e, f j = Except.error e ∧ is_transient e = true) :
    with_backoff f jit =
      ((backoff_aux f jit (6 - i) i (backoff_delay i)).1,
       ((List.range i).map (fun k => backoff_delay k + jit k)) ++
         (backoff_aux f jit (6 - i) i (backoff_delay i)).2) := by
  induction i with
  | zero => rfl
  | succ i ih =>
    obtain ⟨e, hf, ht⟩ := H i (by omega)
    rw [ih (by omega) (fun j hj => H j (by omega))]
    have h6 : 6 - i = (6 - (i + 1)) + 1 := by omega
    have hd : backoff_delay (i + 1) = min (backoff_delay i * 2) 16 := rfl
    rw [h6, backoff_aux_succ, hf]
    simp only [ht, if_true, ← hd, List.range_succ, List.map_append,
      List.map_cons, List.map_nil, List.append_assoc, List.singleton_append]

/-- C4: on any attempt reached after only transient failures, a success
returns its value at once and a non-transient error propagates from that
very attempt, in both cases with no further sleep beyond the ones already
taken (delays 0.5 doubling capped at 16, plus jitter); and when all 6
guarded attempts fail transiently, the sleeps are exactly 0.5, 1, 2, 4, 8,
16 plus jitter and the outcome of the one final unguarded attempt is
returned as-is. -/
theorem backoff_policy {α : Type} (f : Nat → Except String α) (jit : Nat → ℚ) :
    (∀ i v, i < 6 →
      (∀ j, j < i → ∃ e, f j = Except.error e ∧ is_transient e = true) →
      f i = Except.ok v →
      with_backoff f jit =
        (Except.ok v, (List.range i).map (fun k => backoff_delay k + jit k))) ∧
    (∀ i e, i < 6 →
      (∀ j, j < i → ∃ e2, f j = Except.error e2 ∧ is_transient e2 = true) →
      f i = Except.error e → is_transient e = false →
      with_backoff f jit =
        (Except.error e,
         (List.range i).map (fun k => backoff_delay k + jit k))) ∧
    ((∀ i, i < 6 → ∃ e, f i = Except.error e ∧ is_transient e = true) →
      (with_backoff f jit).1 = f 6 ∧
      (with_backoff f jit).2 =
        [1 / 2 + jit 0, 1 + jit 1, 2 + jit 2, 4 + jit 3, 8 + jit 4,
         16 + jit 5]) := by
  refine ⟨?_, ?_, ?_⟩
  · intro i v hi H hfi
    rw [backoff_reach f jit i (by omega) H]
    have h6 : 6 - i = (6 - (i + 1)) + 1 := by omega
    rw [h6, backoff_aux_succ, hfi]
    simp
  · intro i e hi H hfi ht
    rw [backoff_reach f jit i (by omega) H]
    have h6 : 6 - i = (6 - (i + 1)) + 1 := by omega
    rw [h6, backoff_aux_succ, hfi]
    simp [ht]
  · intro h
    rw [backoff_reach f jit 6 (le_refl 6) h]
    refine ⟨rfl, ?_⟩
    have hr : List.range 6 = [0, 1, 2, 3, 4, 5] := rfl
    rw [backoff_aux_zero, hr]
    simp only [List.map_cons, List.map_nil, List.append_nil]
    norm_num [backoff_delay, min_def]

/-- Witness for the backoff theorem: a transient first attempt followed by
a non-transient error propagates that error after exactly one sleep, and
an all-transient sequence yields the error of the final attempt after the
six capped delays. -/
theorem backoff_policy_witness :
    with_backoff
        (fun i => if i == 0 then (Except.error "429 rate" : Except String Nat)
                  else Except.error "dns failure") (fun _ => 0) =
      (Except.error "dns failure",
       (List.range 1).map (fun k => backoff_delay k + 0)) ∧
    (with_backoff (fun _ => (Except.error "429" : Except String Nat))
        (fun _ => 0)).1 = Except.error "429" ∧
    (with_backoff (fun _ => (Except.error "429" : Except String Nat))
        (fun _ => 0)).2 =
      [1 / 2 + 0, 1 + 0, 2 + 0, 4 + 0, 8 + 0, 16 + 0] := by
  refine ⟨?_, ?_⟩
  · exact (backoff_policy
        (fun i => if i == 0 then (Except.error "429 rate" : Except String Nat)
                  else Except.error "dns failure") (fun _ => 0)).2.1
      1 "dns failure" (by decide)
      (fun j hj => by
        have hj0 : j = 0 := by omega
        subst hj0
        exact ⟨"429 rate", rfl, by decide⟩)
      rfl (by decide)
  · exact (backoff_policy (fun _ => (Except.error "429" : Except String Nat))
        (fun _ => 0)).2.2
      (fun i _ => ⟨"429", rfl, by decide⟩)

/-- The shard assignment of main: keep the files whose position in the
stable enumeration is congruent to the shard index modulo max 1 total. -/
def shard_files (total idx : Nat) (files : List α) : List α :=
  (files.enum.filter (fun p => p.1 % max 1 total == idx)).map Prod.snd

lemma sum_if_single (c : ℕ) (N m : ℕ) (hm : m < N) :
    ((List.range N).map (fun i => if m = i then c else 0)).sum = c := by
  induction N with
  | zero => omega
  | succ N ih =>
    rw [List.range_succ, List.map_append, List.sum_append]
    rcases Nat.lt_succ_iff_lt_or_eq.mp hm with h | h
    · rw [ih h]
      simp [Nat.ne_of_lt h]
    · subst h
      have hz : ((List.range m).map (fun i => if m = i then c else 0)).sum = 0 := by
        apply List.sum_eq_zero
        intro x hx
        obtain ⟨i, hi, rfl⟩ := List.mem_map.mp hx
        exact if_neg (Nat.ne_of_gt (List.mem_range.mp hi))
      simp [hz]

lemma count_shards {β : Type} [BEq β] [LawfulBEq β] (N : ℕ) (hN : 1 ≤ N)
    (key : β → ℕ) (E : List β) (x : β) :
    ((List.range N).flatMap
      (fun i => E.filter (fun p => key p % N == i))).count x = E.count x := by
  rw [List.count_flatMap]
  have hfun : ∀ i, (List.count x ∘ fun i => E.filter (fun p => key p % N == i)) i =
      if key x % N = i then E.count x else 0 := by
    intro i
    by_cases hx : key x % N = i
    · simp only [Function.comp_apply, if_pos hx]
      exact List.count_filter (by simp [hx])
    · simp only [Function.comp_apply, if_neg hx]
      refine List.count_eq_zero.mpr (fun hmem => hx ?_)
      have := (List.mem_filter.mp hmem).2
      simpa using this
  rw [funext hfun]
  exact sum_if_single (E.count x) N (key x % N) (Nat.mod_lt _ (by omega))

/-- C6: for shard total N at least 1, shard i keeps exactly the files at
positions congruent to i mod N in the enumeration; distinct shard indices
select disjoint position sets; and the concatenation of all N shards is a
permutation of the full file list (exhaustive, no duplicates). -/
theorem shard_assignment {α : Type} [DecidableEq α]
    (files : List α) (N i : ℕ) (hN : 1 ≤ N) :
    shard_files N i files =
      (files.enum.filter (fun p => p.1 % N == i)).map Prod.snd ∧
    (∀ j, i ≠ j →
      (files.enum.filter (fun p => p.1 % N == i)).Disjoint
        (files.enum.filter (fun p => p.1 % N == j))) ∧
    ((List.range N).flatMap (fun k => shard_files N k files)).Perm files := by
  have hmax : max 1 N = N := max_eq_right hN
  refine ⟨by rw [shard_files, hmax], ?_, ?_⟩
  · intro j hij x hx1 hx2
    have h1 := (List.mem_filter.mp hx1).2
    have h2 := (List.mem_filter.mp hx2).2
    exact hij (by simp only [beq_iff_eq] at h1 h2; omega)
  · have hpair : ((List.range N).flatMap
        (fun k => files.enum.filter (fun p => p.1 % N == k))).Perm files.enum :=
      List.perm_iff_count.mpr
        (fun x => @count_shards (ℕ × α) instBEqOfDecidableEq instLawfulBEq N hN
          Prod.fst files.enum x)
    have hmap := hpair.map Prod.snd
    rw [List.map_flatMap, List.enum_map_snd] at hmap
    simpa [shard_files, hmax] using hmap

/-- Witness for the shard-assignment theorem: three files over two shards
concatenate back to the full list. -/
theorem shard_assignment_witness :
    (1 : ℕ) ≤ 2 ∧
    ((List.range 2).flatMap (fun k => shard_files 2 k ["a", "b", "c"])).Perm
      ["a", "b", "c"] :=
  ⟨by decide, (shard_assignment ["a", "b", "c"] 2 0 (by decide)).2.2⟩

/-- load_cache over pre-parsed lines: entry i is some (ip, data) when
json.loads succeeds and both keys are present, none for a malformed line,
which the loop skips. The foldl mirrors d[str(o[ip])] = o[data] over the
map read back as a lookup function. -/
def load_cache {δ : Type} (lines : List (Option (String × δ))) :
    String → Option δ :=
  lines.foldl
    (fun m l =>
      match l with
      | none => m
      | some (k, v) => fun k2 => if k2 = k then some v else m k2)
    (fun _ => none)

lemma load_cache_spec {δ : Type} (lines : List (Option (String × δ)))
    (k : String) :
    load_cache lines k =
      ((lines.filterMap id).filter (fun p => p.1 == k)).getLast?.map
        Prod.snd := by
  induction lines using List.reverseRecOn with
  | nil => rfl
  | append_singleton l x ih =>
    have hstep : load_cache (l ++ [x]) k =
        (match x with
         | none => load_cache l k
         | some (k', v) => if k = k' then some v else load_cache l k) := by
      unfold load_cache
      rw [List.foldl_append]
      rcases x with _ | ⟨k', v⟩
      · rfl
      · rfl
    rw [hstep, List.filterMap_append, List.filter_append]
    rcases x with _ | ⟨k', v⟩
    · simpa using ih
    · by_cases hk : k = k'
      · subst hk
        simp [List.getLast?_append]
      · have hb : (k' == k) = false := by
          simpa using Ne.symm hk
        have hne : ((List.filterMap id [some (k', v)]).filter
            (fun p => p.1 == k)) = [] := by
          simp [List.filter, hb]
        rw [hne, List.append_nil]
        simpa [hk] using ih

/-- C7: loading the durable log is a skip-malformed, last-write-wins fold:
the loaded map holds, at every key, exactly the data of the last valid
record bearing that key (and nothing at keys with no valid record); a log
with duplicate keys reloads to the last-appended valid value per key. -/
theorem cache_reload_last_write :
    (∀ (δ : Type) (lines : List (Option (String × δ))) (k : String),
      load_cache lines k =
        ((lines.filterMap id).filter (fun p => p.1 == k)).getLast?.map
          Prod.snd) ∧
    load_cache [some ("a", 1), none, some ("a", 2), some ("b", 3)] "a" =
      some 2 ∧
    load_cache [some ("a", 1), none, some ("a", 2), some ("b", 3)] "c" =
      none :=
  ⟨fun _ lines k => load_cache_spec lines k, by decide, by decide⟩

/-- The default CDN/cloud ASN exclusion set of the source. -/
def CDN_ASNS : List Int :=
  [13335, 20940, 32787, 54113, 199524, 12989,
   16509, 14618, 15169, 8075, 31898, 45102, 20473, 14061, 63949,
   16276, 24940, 9009, 60781, 32934, 174, 262254, 57724, 209242, 132203]

/-- The default CDN/cloud domain keywords of the source. -/
def CDN_DOMAIN_KEYS : List String :=
  ["cloudflare", "akamai", "amazonaws", "cloudfront", "fastly", "cdn",
   "googleusercontent", "azure", "aliyuncs", "oraclecloud",
   "linodeusercontent", "digitaloceanspaces", "edgesuite", "edgekey",
   "cdn77", "gcore", "stackpath"]

/-- The default CDN/cloud organization keywords of the source. -/
def CDN_ORG_KEYS : List String :=
  ["cloudflare", "akamai", "fastly", "amazon", "aws", "google", "microsoft",
   "azure", "oracle", "alibaba", "tencent", "linode", "digitalocean", "ovh",
   "hetzner", "meta", "facebook", "leaseweb", "g-core", "gcore", "stackpath",
   "ddos-guard", "ddos guard", "qrator"]

/-- One row as seen by exclude_cdn: the optional domain cell, the numeric
ASN cell (none for a missing column or an unparseable value), and the
organization-like cells (asorg, org, isp, rdap_org) present in the frame
in column order, none standing for an NA cell. -/
structure Row where
  domain : Option String
  asnum : Option Int
  orgs : List (Option String)
deriving DecidableEq

/-- The compiled keyword alternation applied through str.contains with
re.I: some keyword is a case-insensitive substring. -/
def matches_any (keys : List String) (s : String) : Bool :=
  keys.any (fun kw => strIn (strLower kw) (strLower s))

/-- The m_dom mask of exclude_cdn on one row: false for a missing cell. -/
def m_dom (r : Row) : Bool :=
  match r.domain with
  | none => false
  | some d => matches_any CDN_DOMAIN_KEYS d

/-- The m_asn mask of exclude_cdn on one row: membership of the numeric
ASN in the exclusion set, false for NA. -/
def m_asn (r : Row) : Bool :=
  match r.asnum with
  | none => false
  | some a => CDN_ASNS.contains a

/-- The space join of the organization columns (fillna then " ".join). -/
def joinSp : List String → String
  | [] => ""
  | [s] => s
  | s :: rest => s ++ " " ++ joinSp rest

/-- The m_org mask of exclude_cdn on one row: false when no organization
column exists, else a keyword match on the joined text. -/
def m_org (r : Row) : Bool :=
  match r.orgs with
  | [] => false
  | _ => matches_any CDN_ORG_KEYS (joinSp (r.orgs.map (fun o => o.getD "")))

/-- exclude_cdn: keep the rows matching none of the three signals
(mask = not (m_dom or m_asn or m_org)). -/
def exclude_cdn (rows : List Row) : List Row :=
  rows.filter (fun r => !(m_dom r || m_asn r || m_org r))

lemma not_or3 (a b c : Bool) :
    (!(a || b || c)) = true ↔ a = false ∧ b = false ∧ c = false := by
  rcases a <;> rcases b <;> rcases c <;> simp

/-- C8: a row is kept by the CDN/cloud filter exactly when none of the
three signals fires (domain keyword, ASN in the exclusion set, org
keyword); an ASN in the set excludes the row whatever its other fields;
the sample domain cdn.example.com fires the domain signal; a row firing no
signal is retained; and missing cells fire no signal. -/
theorem cdn_filter_correct (rows : List Row) (r : Row) :
    (r ∈ exclude_cdn rows ↔
      r ∈ rows ∧ m_dom r = false ∧ m_asn r = false ∧ m_org r = false) ∧
    (∀ dom orgs, m_asn ⟨dom, some 13335, orgs⟩ = true) ∧
    (∀ dom orgs, exclude_cdn [⟨dom, some 13335, orgs⟩] = []) ∧
    m_dom ⟨some "cdn.example.com", none, []⟩ = true ∧
    exclude_cdn [⟨some "example.net", some 64500, [some "Example LLC"]⟩] =
      [⟨some "example.net", some 64500, [some "Example LLC"]⟩] ∧
    m_dom ⟨none, none, []⟩ = false ∧ m_asn ⟨none, none, []⟩ = false ∧
    m_org ⟨none, none, []⟩ = false := by
  refine ⟨?_, fun dom orgs => rfl, fun dom orgs => ?_, by decide, by decide,
    rfl, rfl, rfl⟩
  · rw [exclude_cdn, List.mem_filter, and_congr_right_iff]
    intro _
    exact not_or3 (m_dom r) (m_asn r) (m_org r)
  · have h : m_asn ⟨dom, some 13335, orgs⟩ = true := rfl
    simp [exclude_cdn, h]

/-- The network sub-object of a raw RDAP reply, as read by rdap_lookup. -/
structure RawNetwork where
  country : Option String
  name : Option String
  cidr : Option String

/-- The raw RDAP reply fields read by rdap_lookup. -/
structure RawRdap where
  network : Option RawNetwork
  asn_description : Option String
  nir : Option String
  asn_registry : Option String

/-- The Python or over optional strings: the left value unless it is falsy
(None or the empty string). -/
def pyOr (a b : Option String) : Option String :=
  match a with
  | none => b
  | some s => if s = "" then b else some s

/-- The success branch of rdap_lookup: net = r.network or empty, country
upper-cased with the empty string mapped to None, org from net.name or
asn_description, rir from nir or asn_registry. -/
def normalize_rdap (r : RawRdap) : CacheEntry :=
  let net := r.network.getD ⟨none, none, none⟩
  let cc := strUpper (net.country.getD "")
  { ok := true
    rdap_net_cc := if cc = "" then none else some cc
    rdap_org := pyOr net.name r.asn_description
    rdap_cidr := net.cidr
    rir := pyOr r.nir r.asn_registry
    error := none }

/-- rdap_lookup over the abstract attempt sequence: the rate-limited,
backoff-wrapped lookup either returns a raw reply, normalized into a
success entry, or raises, and the try/except converts any escaping
exception into a failed entry carrying the exception text. -/
def rdap_lookup (f : Nat → Except String RawRdap) (jit : Nat → ℚ) :
    CacheEntry :=
  match (with_backoff f jit).1 with
  | Except.ok r => normalize_rdap r
  | Except.error e => { ok := false, error := some e }

/-- C9: the per-IP lookup is total on both outcomes of the wrapped call: a
raw reply becomes a success entry (ok true with the normalized fields), an
escaping exception becomes a failed entry with ok false and the exception
text, and mapping the lookup over a batch of IPs always yields one entry
per IP. -/
theorem lookup_never_raises (f : Nat → Except String RawRdap)
    (jit : Nat → ℚ) :
    (∀ e, (with_backoff f jit).1 = Except.error e →
      rdap_lookup f jit = { ok := false, error := some e }) ∧
    (∀ r, (with_backoff f jit).1 = Except.ok r →
      rdap_lookup f jit = normalize_rdap r ∧ (rdap_lookup f jit).ok = true) ∧
    ((rdap_lookup f jit).ok = true ∨
      ∃ e, (with_backoff f jit).1 = Except.error e ∧
        rdap_lookup f jit = { ok := false, error := some e }) ∧
    (∀ (ips : List String) (g : String → Nat → Except String RawRdap),
      (ips.map (fun ip => rdap_lookup (g ip) jit)).length = ips.length) := by
  refine ⟨?_, ?_, ?_, fun ips g => List.length_map ips _⟩
  · intro e he
    rw [rdap_lookup, he]
  · intro r hr
    rw [rdap_lookup, hr]
    exact ⟨rfl, rfl⟩
  · rcases hw : (with_backoff f jit).1 with e | r
    · exact Or.inr ⟨e, rfl, by rw [rdap_lookup, hw]⟩
    · exact Or.inl (by rw [rdap_lookup, hw]; rfl)

/-- Witness for the lookup-isolation theorem: a non-transient failing
attempt sequence produces a failed entry with the exception text. -/
theorem lookup_never_raises_witness :
    (with_backoff (fun _ => (Except.error "boom" : Except String RawRdap))
        (fun _ => 0)).1 = Except.error "boom" ∧
    rdap_lookup (fun _ => Except.error "boom") (fun _ => 0) =
      { ok := false, error := some "boom" } :=
  ⟨rfl,
   (lookup_never_raises (fun _ => Except.error "boom") (fun _ => 0)).1
     "boom" rfl⟩

/-- The six rdap columns attached to one source IP by the merge step of
process_csv; none models a null cell in the output frame. -/
structure MergedRdap where
  rdap_ok : Option Bool
  rdap_net_cc : Option String
  rdap_org : Option String
  rdap_cidr : Option String
  rir : Option String
  rdap_error : Option String
deriving DecidableEq

/-- The per-IP merge row of process_csv: r = cache.get(ip) or empty; with
no entry every field is None, otherwise the fields come from the entry,
with a falsy cached country mapped to None (r.get("rdap_net_cc") or None). -/
def merge_row (cache : String → Option CacheEntry) (ip : String) :
    MergedRdap :=
  match cache ip with
  | none => ⟨none, none, none, none, none, none⟩
  | some r =>
    ⟨some r.ok, pyOr r.rdap_net_cc none, r.rdap_org, r.rdap_cidr, r.rir,
     r.error⟩

/-- C10: an IP with no cache entry at merge time carries null rdap_ok and
null values in all six columns; rdap_ok is false exactly for IPs whose
cache entry recorded a failure; and rdap_ok is null exactly when the IP
was never looked up, so the output separates never-looked-up from failed. -/
theorem merge_null_semantics (cache : String → Option CacheEntry)
    (ip : String) :
    (cache ip = none →
      merge_row cache ip = ⟨none, none, none, none, none, none⟩) ∧
    ((merge_row cache ip).rdap_ok = some false ↔
      ∃ c, cache ip = some c ∧ c.ok = false) ∧
    ((merge_row cache ip).rdap_ok = none ↔ cache ip = none) := by
  rcases hc : cache ip with _ | c
  · refine ⟨fun _ => by simp [merge_row, hc], ?_, ?_⟩ <;> simp [merge_row, hc]
  · refine ⟨fun h => absurd h (by simp), ?_, ?_⟩ <;> simp [merge_row, hc]

/-- Witness for the merge-null theorem: the empty cache yields the all-null
merged row. -/
theorem merge_null_semantics_witness :
    merge_row (fun _ => none) "203.0.113.7" =
      ⟨none, none, none, none, none, none⟩ :=
  (merge_null_semantics (fun _ => none) "203.0.113.7").1 rfl

end RdapEnrichment
